import Mathlib

/-!
Shallow embedding of the website-scraper extraction and enrichment pipeline.

The embedding covers the edge function (the `Deno.serve` request handler,
`parseHtml` and `generateAISummary`) and the front-end URL handling
(`normalizeUrl`, `validateUrl` and the submit flow).  Strings are modelled
as `List Char`; each JavaScript regex used by the source is embedded as a
dedicated matcher that follows the backtracking semantics of that concrete
pattern.  Platform builtins (the WHATWG `URL` constructor, `fetch`, the
record store) are modelled explicitly, with effects passed in as oracle
data, so the handler becomes a pure function of its environment.
-/

/-- ASCII lower-casing of one character; models the `i` (ignore-case) flag
of the source's regexes. -/
def asciiLower (c : Char) : Char :=
  if 'A' ≤ c ∧ c ≤ 'Z' then Char.ofNat (c.toNat + 32) else c

/-- Character class `["']` of the link regex. -/
def isQuote (c : Char) : Bool := c == '"' || c == Char.ofNat 39

/-- The JavaScript `\s` class (whitespace), restricted to its ASCII members. -/
def isJsSpace (c : Char) : Bool :=
  c == ' ' || c == '\t' || c == '\n' || c == '\r' || c == '\x0b' || c == '\x0c'

/-- The JavaScript `\w` class, used for the `\b` word boundaries of the
navigation-word denylist regex. -/
def isWordChar (c : Char) : Bool := c.isAlphanum || c == '_'

/-- Characters allowed after the first character of a URL scheme. -/
def isSchemeChar (c : Char) : Bool := c.isAlphanum || c == '+' || c == '-' || c == '.'

/-- Digit class `[1-6]` of the heading regex. -/
def isHeadDigit (c : Char) : Bool := '1' ≤ c && c ≤ '6'

/-- Match a literal pattern case-insensitively at the head of the input,
returning the consumed characters (in their original case) and the rest. -/
def expectCI : List Char → List Char → Option (List Char × List Char)
  | [], cs => some ([], cs)
  | _ :: _, [] => none
  | p :: ps, c :: cs =>
    if asciiLower p == asciiLower c then
      match expectCI ps cs with
      | some (t, r) => some (c :: t, r)
      | none => none
    else none

/-- Case-insensitive equality of character lists. -/
def ciEqL : List Char → List Char → Bool
  | [], [] => true
  | p :: ps, c :: cs => asciiLower p == asciiLower c && ciEqL ps cs
  | _, _ => false

/-- Exact prefix test, models `String.prototype.startsWith`. -/
def startsWithL : List Char → List Char → Bool
  | [], _ => true
  | _ :: _, [] => false
  | p :: ps, c :: cs => p == c && startsWithL ps cs

/-- Substring containment, models `String.prototype.includes`. -/
def containsSub (needle : List Char) : List Char → Bool
  | [] => needle.isEmpty
  | c :: cs => startsWithL needle (c :: cs) || containsSub needle cs

/-- Right trim used by the model of `String.prototype.trim`. -/
def trimRight : List Char → List Char
  | [] => []
  | c :: cs =>
    let r := trimRight cs
    if r.isEmpty && isJsSpace c then [] else c :: r

/-- Model of `String.prototype.trim` (whitespace removed from both ends). -/
def jsTrim (cs : List Char) : List Char := trimRight (cs.dropWhile isJsSpace)

/-! ## URL model

The source relies on the platform's WHATWG `URL` constructor in three
places: validating the request URL, splitting a base URL into
`protocol`/`host`, and resolving relative hrefs.  These builtins are not
repository code; they are modelled here, simplified to the cases the
extractor exercises (no percent-encoding, no dot-segment normalization,
query/fragment references resolved like path references, `http`/`https`
required to carry a `//authority`). -/

structure URLRec where
  scheme : List Char
  host : List Char
  path : List Char
deriving DecidableEq, Repr

/-- The special schemes the model recognizes (`URL.protocol` is
`scheme ++ ":"`). -/
def isSpecialScheme (s : List Char) : Bool := ciEqL "http".data s || ciEqL "https".data s

/-- Host characters the model accepts (the WHATWG parser rejects these). -/
def validHostChar (c : Char) : Bool := c != ' ' && c != '@' && c != '\\'

/-- Modelled from the platform: the WHATWG `new URL(s)` parser, simplified
as described above.  `none` models the constructor throwing. -/
def parseURL (s : List Char) : Option URLRec :=
  match s with
  | [] => none
  | c :: rest =>
    if c.isAlpha then
      let tl := rest.takeWhile isSchemeChar
      match rest.dropWhile isSchemeChar with
      | ':' :: r2 =>
        let scheme := c :: tl
        if isSpecialScheme scheme then
          if startsWithL "//".data r2 then
            let auth := (r2.drop 2).takeWhile (fun c => c != '/' && c != '?' && c != '#')
            let path := (r2.drop 2).dropWhile (fun c => c != '/' && c != '?' && c != '#')
            if !auth.isEmpty && auth.all validHostChar then some ⟨scheme, auth, path⟩
            else none
          else none
        else some ⟨scheme, [], r2⟩
      | _ => none
    else none

/-- Rebuild an absolute URL string whose scheme is taken from `u`. -/
def mkAbs (u : URLRec) (tail : List Char) : List Char := u.scheme ++ ':' :: tail

/-- Modelled from the platform: `URL.prototype.toString` (serialization);
special URLs with an empty path serialize with path `/`. -/
def urlToString (u : URLRec) : List Char :=
  if isSpecialScheme u.scheme then
    mkAbs u ('/' :: '/' :: (u.host ++ (if u.path.isEmpty then "/".data else u.path)))
  else mkAbs u u.path

/-- Does the string begin with `scheme:` for some syntactically valid
scheme?  This is the model's notion of an absolute URL. -/
def hasUrlScheme (s : List Char) : Bool :=
  match s with
  | [] => false
  | c :: rest => c.isAlpha && (rest.dropWhile isSchemeChar).head? == some ':'

/-- Directory part of a path: everything up to and including the last `/`
(`/` when the path has none). -/
def dirOf (p : List Char) : List Char :=
  let r := (p.reverse.dropWhile (fun c => c != '/')).reverse
  if r.isEmpty then "/".data else r

/-- Remove a leading `./` from a relative reference. -/
def stripDotSlash (href : List Char) : List Char :=
  if startsWithL "./".data href then href.drop 2 else href

/-- Modelled from the platform: `new URL(href, base)` (WHATWG relative
resolution), simplified as described above.  `none` models the constructor
throwing. -/
def newURL (href base : List Char) : Option (List Char) :=
  if hasUrlScheme href then some href
  else
    match parseURL base with
    | none => none
    | some b =>
      if !isSpecialScheme b.scheme then none
      else if startsWithL "//".data href then some (mkAbs b href)
      else if href.head? = some '/' then some (mkAbs b ('/' :: '/' :: (b.host ++ href)))
      else some (mkAbs b ('/' :: '/' :: (b.host ++ dirOf b.path ++ stripDotSlash href)))

/-! ## Title extraction

Embeds `html.match(/<title[^>]*>([^<]+)<\/title>/i)` (`parseHtml`): the
first position where the pattern matches, returning the capture group.
Matching at a fixed position is deterministic: `[^>]*` cannot cross the
`>` that must follow it, and `[^<]+` cannot cross the `<` that must
follow it, so neither can backtrack into a different split. -/

/-- Attempt the title pattern at the start of the input. -/
def tryTitleAt (cs : List Char) : Option (List Char) :=
  match expectCI "<title".data cs with
  | none => none
  | some (_, r1) =>
    match r1.dropWhile (fun c => c != '>') with
    | '>' :: r2 =>
      let t := r2.takeWhile (fun c => c != '<')
      if t.isEmpty then none
      else
        match expectCI "</title>".data (r2.dropWhile (fun c => c != '<')) with
        | some _ => some t
        | none => none
    | _ => none

/-- Leftmost match of the title pattern (capture group). -/
def firstTitle : List Char → Option (List Char)
  | [] => none
  | c :: cs =>
    match tryTitleAt (c :: cs) with
    | some t => some t
    | none => firstTitle cs

/-! ## Heading extraction

Embeds `html.match(/<h[1-6][^>]*>([^<]+)<\/h[1-6]>/gi)` and the per-match
re-extraction `match.match(/>([^<]+)</)` of `parseHtml`.  The opening and
closing digits are matched independently, as in the regex. -/

/-- Attempt the heading pattern at the start of the input; on success,
return the whole match string and the remaining input. -/
def tryHeadAt (cs : List Char) : Option (List Char × List Char) :=
  match cs with
  | c0 :: c1 :: c2 :: rest0 =>
    if c0 == '<' && (asciiLower c1 == 'h') && isHeadDigit c2 then
      let s1 := rest0.takeWhile (fun c => c != '>')
      match rest0.dropWhile (fun c => c != '>') with
      | '>' :: r2 =>
        let t := r2.takeWhile (fun c => c != '<')
        if t.isEmpty then none
        else
          match r2.dropWhile (fun c => c != '<') with
          | '<' :: '/' :: d1 :: d2 :: '>' :: r3 =>
            if (asciiLower d1 == 'h') && isHeadDigit d2 then
              some (c0 :: c1 :: c2 :: s1 ++ '>' :: t ++ '<' :: '/' :: d1 :: d2 :: '>' :: [], r3)
            else none
          | _ => none
      | _ => none
    else none
  | _ => none

/-- All (non-overlapping, leftmost-first) heading matches, as match
strings; the fuel bounds the scan and `length cs` always suffices. -/
def gatherHeads : Nat → List Char → List (List Char)
  | 0, _ => []
  | _, [] => []
  | fuel + 1, c :: cs =>
    match tryHeadAt (c :: cs) with
    | some (m, rest) => m :: gatherHeads fuel rest
    | none => gatherHeads fuel cs

/-- Leftmost match of `/>([^<]+)</` (capture group). -/
def firstGtInnerPlus : List Char → Option (List Char)
  | [] => none
  | c :: cs =>
    if c == '>' then
      let t := cs.takeWhile (fun x => x != '<')
      if !t.isEmpty && !(cs.dropWhile (fun x => x != '<')).isEmpty then some t
      else firstGtInnerPlus cs
    else firstGtInnerPlus cs

/-- Leftmost match of `/>([^<]*)</` (capture group, possibly empty). -/
def firstGtInnerStar : List Char → Option (List Char)
  | [] => none
  | c :: cs =>
    if c == '>' then
      let t := cs.takeWhile (fun x => x != '<')
      if !(cs.dropWhile (fun x => x != '<')).isEmpty then some t
      else firstGtInnerStar cs
    else firstGtInnerStar cs

/-! ## Link extraction

Embeds `html.match(/<a[^>]+href=["']([^"']+)["'][^>]*>([^<]*)<\/a>/gi)`
(`parseHtml`).  The only genuinely nondeterministic quantifier is the
leading `[^>]+`: it is greedy, so candidate spans are tried longest
first; everything after it is deterministic for the same reason as in
the title pattern. -/

structure ContParts where
  hr : List Char
  q1 : Char
  v : List Char
  q2 : Char
  s2 : List Char
  txt : List Char
  cl : List Char
deriving DecidableEq, Repr

structure LinkParts where
  openTag : List Char
  s1 : List Char
  hr : List Char
  q1 : Char
  v : List Char
  q2 : Char
  s2 : List Char
  txt : List Char
  cl : List Char
deriving DecidableEq, Repr

/-- The whole match string an accepted link pattern stands for. -/
def LinkParts.str (p : LinkParts) : List Char :=
  p.openTag ++ p.s1 ++ p.hr ++ p.q1 :: p.v ++ p.q2 :: p.s2 ++ '>' :: p.txt ++ p.cl

/-- Deterministic continuation of the link pattern after the `[^>]+` span:
`href=["']([^"']+)["'][^>]*>([^<]*)<\/a>`. -/
def linkCont (cs : List Char) : Option (ContParts × List Char) :=
  match expectCI "href=".data cs with
  | none => none
  | some (hr, r2) =>
    match r2 with
    | [] => none
    | q1 :: r3 =>
      if isQuote q1 then
        match r3.dropWhile (fun c => !isQuote c) with
        | [] => none
        | q2 :: r4 =>
          if (r3.takeWhile (fun c => !isQuote c)).isEmpty then none
          else if isQuote q2 then
            match r4.dropWhile (fun c => c != '>') with
            | '>' :: r5 =>
              match expectCI "</a>".data (r5.dropWhile (fun c => c != '<')) with
              | some (cl, rest) =>
                some (⟨hr, q1, r3.takeWhile (fun c => !isQuote c), q2,
                       r4.takeWhile (fun c => c != '>'),
                       r5.takeWhile (fun c => c != '<'), cl⟩, rest)
              | none => none
            | _ => none
          else none
      else none

/-- Greedy `[^>]+`: try the span of length `k` (longest first), then the
deterministic continuation. -/
def linkTail (r1 : List Char) : Nat → Option (List Char × ContParts × List Char)
  | 0 => none
  | k + 1 =>
    let s1 := r1.take (k + 1)
    if s1.length = k + 1 && s1.all (fun c => c != '>') then
      match linkCont (r1.drop (k + 1)) with
      | some (cp, rest) => some (s1, cp, rest)
      | none => linkTail r1 k
    else linkTail r1 k

/-- Attempt the link pattern at the start of the input. -/
def tryLinkAt (cs : List Char) : Option (LinkParts × List Char) :=
  match expectCI "<a".data cs with
  | none => none
  | some (a2, r1) =>
    match linkTail r1 r1.length with
    | some (s1, cp, rest) =>
      some (⟨a2, s1, cp.hr, cp.q1, cp.v, cp.q2, cp.s2, cp.txt, cp.cl⟩, rest)
    | none => none

/-- All (non-overlapping, leftmost-first) link matches, as match strings. -/
def gatherLinks : Nat → List Char → List (List Char)
  | 0, _ => []
  | _, [] => []
  | fuel + 1, c :: cs =>
    match tryLinkAt (c :: cs) with
    | some (p, rest) => p.str :: gatherLinks fuel rest
    | none => gatherLinks fuel cs

/-- Attempt `/href=["']([^"']+)["']/i` at the start of the input. -/
def tryHrefAt (cs : List Char) : Option (List Char) :=
  match expectCI "href=".data cs with
  | none => none
  | some (_, r) =>
    match r with
    | [] => none
    | q :: r2 =>
      if isQuote q then
        let v := r2.takeWhile (fun c => !isQuote c)
        if !v.isEmpty && !(r2.dropWhile (fun c => !isQuote c)).isEmpty then some v
        else none
      else none

/-- Leftmost match of `/href=["']([^"']+)["']/i` (capture group), the
per-match re-extraction of `parseHtml`. -/
def firstHref : List Char → Option (List Char)
  | [] => none
  | c :: cs =>
    match tryHrefAt (c :: cs) with
    | some v => some v
    | none => firstHref cs

structure Link where
  text : List Char
  url : List Char
deriving DecidableEq, Repr

/-- The body of the `.map` over link matches in `parseHtml`: re-extract
href and inner text, trim the text, resolve the href to absolute form.
`some none` models `return null`; the outer `none` models the uncaught
`new URL(baseUrl)` throw of the `/`-prefix branch. -/
def linkOfMatch (baseUrl : List Char) (m : List Char) : Option (Option Link) :=
  match firstHref m with
  | none => some none
  | some href =>
    let text :=
      match firstGtInnerStar m with
      | some t => jsTrim t
      | none => href
    if href.head? = some '/' then
      match parseURL baseUrl with
      | none => none
      | some b =>
        let url := mkAbs b ('/' :: '/' :: (b.host ++ href))
        some (some ⟨if text.isEmpty then url else text, url⟩)
    else if startsWithL "./".data href || !containsSub "://".data href then
      match newURL href baseUrl with
      | none => some none
      | some url => some (some ⟨if text.isEmpty then url else text, url⟩)
    else
      some (some ⟨if text.isEmpty then href else text, href⟩)

/-- The filter predicate applied to mapped links in `parseHtml`. -/
def goodLink (l : Link) : Bool :=
  !l.text.isEmpty && !l.url.isEmpty &&
    !startsWithL "javascript:".data l.url && !startsWithL "mailto:".data l.url

/-- Effectful map over a list where `none` models a thrown exception. -/
def mapMO (f : α → Option β) : List α → Option (List β)
  | [] => some []
  | a :: as =>
    match f a, mapMO f as with
    | some b, some bs => some (b :: bs)
    | _, _ => none

/-! ## Content extraction

Embeds the chain of `String.prototype.replace` calls of `parseHtml`:
script/style/noscript block removal, tag stripping, whitespace collapse
and trim, the navigation-word denylist, and the final truncation. -/

/-- Skip to just past the first case-insensitive occurrence of `cl`
(models the lazy `[\s\S]*?` followed by a literal closing tag). -/
def skipPastCI (cl : List Char) : List Char → Option (List Char)
  | [] => none
  | c :: cs =>
    match expectCI cl (c :: cs) with
    | some (_, rest) => some rest
    | none => skipPastCI cl cs

/-- Attempt `<TAG[^>]*>[\s\S]*?<\/TAG>` at the start of the input (the
lazy `[\s\S]*?` runs to the first closing tag); on success return the
input with the whole block consumed. -/
def tryBlockAt (tag : List Char) (cs : List Char) : Option (List Char) :=
  match expectCI ('<' :: tag) cs with
  | none => none
  | some (_, r1) =>
    match r1.dropWhile (fun c => c != '>') with
    | '>' :: r2 => skipPastCI ('<' :: '/' :: tag ++ '>' :: []) r2
    | _ => none

/-- Global replace of `<TAG[^>]*>[\s\S]*?<\/TAG>` with the empty string. -/
def removeBlocks (tag : List Char) : Nat → List Char → List Char
  | 0, cs => cs
  | _, [] => []
  | fuel + 1, c :: cs =>
    match tryBlockAt tag (c :: cs) with
    | some rest => removeBlocks tag fuel rest
    | none => c :: removeBlocks tag fuel cs

/-- Global replace of `<[^>]+>` with a single space. -/
def stripTags : Nat → List Char → List Char
  | 0, cs => cs
  | _, [] => []
  | fuel + 1, c :: cs =>
    if c == '<' then
      let s1 := cs.takeWhile (fun x => x != '>')
      if !s1.isEmpty then
        match cs.dropWhile (fun x => x != '>') with
        | '>' :: r => ' ' :: stripTags fuel r
        | _ => c :: stripTags fuel cs
      else c :: stripTags fuel cs
    else c :: stripTags fuel cs

/-- Global replace of `\s+` with a single space. -/
def collapseWs : Nat → List Char → List Char
  | 0, cs => cs
  | _, [] => []
  | fuel + 1, c :: cs =>
    if isJsSpace c then ' ' :: collapseWs fuel (cs.dropWhile isJsSpace)
    else c :: collapseWs fuel cs

/-- The alternatives of the navigation-word denylist, in alternation
order; `cookies?` contributes `cookies` then `cookie` (greedy `?`). -/
def denyWords : List (List Char) :=
  ["home".data, "about".data, "contact".data, "privacy".data, "terms".data,
   "cookies".data, "cookie".data, "login".data, "register".data,
   "sign up".data, "sign in".data, "menu".data, "navigation".data,
   "footer".data, "header".data]

/-- Word boundary after a match: next character absent or a non-word
character. -/
def boundaryAfter (rest : List Char) : Bool :=
  match rest.head? with
  | some c => !isWordChar c
  | none => true

/-- Try the alternatives in order at the current position. -/
def tryAlts (cs : List Char) : List (List Char) → Option (List Char)
  | [] => none
  | alt :: alts =>
    match expectCI alt cs with
    | some (_, rest) => if boundaryAfter rest then some rest else tryAlts cs alts
    | none => tryAlts cs alts

/-- Global replace of `\b(home|about|...)\b` (case-insensitive) with the
empty string; `prevW` records whether the previous character of the
original string is a word character (for the leading `\b`). -/
def denyScan : Nat → Bool → List Char → List Char
  | 0, _, cs => cs
  | _, _, [] => []
  | fuel + 1, prevW, c :: cs =>
    match (if prevW then none else tryAlts (c :: cs) denyWords) with
    | some rest => denyScan fuel true rest
    | none => c :: denyScan fuel (isWordChar c) cs

/-- The content pipeline of `parseHtml` (source lines 209-229). -/
def extractContent (html : List Char) : List Char :=
  let c1 := removeBlocks "script".data html.length html
  let c2 := removeBlocks "style".data c1.length c1
  let c3 := removeBlocks "noscript".data c2.length c2
  let c4 := stripTags c3.length c3
  let c5 := jsTrim (collapseWs c4.length c4)
  let c6 := denyScan c5.length false c5
  if c6.length > 15000 then c6.take 15000 else c6

structure ScrapedData where
  title : List Char
  content : List Char
  headings : List (List Char)
  links : List Link
deriving DecidableEq, Repr

/-- The title step of `parseHtml`: trimmed first match, default
`Untitled`. -/
def extractTitle (html : List Char) : List Char :=
  match firstTitle html with
  | some t => jsTrim t
  | none => "Untitled".data

/-- The heading step of `parseHtml`: per-match re-extraction, trim, drop
empties, first twenty. -/
def extractHeadings (html : List Char) : List (List Char) :=
  (((gatherHeads html.length html).map (fun m =>
      match firstGtInnerPlus m with
      | some t => jsTrim t
      | none => [])).filter (fun h => !h.isEmpty)).take 20

/-- The link step of `parseHtml`: map each match, drop nulls and filtered
entries, first fifty.  `none` models the uncaught `new URL(baseUrl)` throw
of the `/`-prefix branch. -/
def extractLinks (html baseUrl : List Char) : Option (List Link) :=
  match mapMO (linkOfMatch baseUrl) (gatherLinks html.length html) with
  | none => none
  | some es => some (((es.filterMap id).filter goodLink).take 50)

/-- The extractor `parseHtml(html, baseUrl)` of the edge function.
`none` models the uncaught `new URL(baseUrl)` throw inside the link
resolution (every other malformation degrades gracefully). -/
def parseHtml (html baseUrl : List Char) : Option ScrapedData :=
  match extractLinks html baseUrl with
  | none => none
  | some links =>
    some ⟨extractTitle html, extractContent html, extractHeadings html, links⟩

/-! ## Front-end URL handling

Embeds `normalizeUrl`, `validateUrl` and the URL portion of
`handleSubmit` from the React app: trim, prepend `https://` when the
input does not match `/^https?:\/\//i`, validate with `new URL`, and
only then issue the network request to the edge function. -/

/-- The test `/^https?:\/\//i` of `normalizeUrl`. -/
def startsWithHttpScheme (cs : List Char) : Bool :=
  (expectCI "http://".data cs).isSome || (expectCI "https://".data cs).isSome

/-- The front-end `normalizeUrl`. -/
def normalizeUrl (inputUrl : List Char) : List Char :=
  let n := jsTrim inputUrl
  if startsWithHttpScheme n then n else "https://".data ++ n

/-- The front-end `validateUrl` (`new URL(url)` succeeds). -/
def validateUrl (u : List Char) : Bool := (parseURL u).isSome

/-- Outcome of the URL-handling portion of the front-end `handleSubmit`:
either an error is shown and no request is made, or a request with the
normalized URL is sent to the edge function. -/
inductive SubmitAction where
  | emptyUrlError : SubmitAction
  | invalidUrlError : SubmitAction
  | request : List Char → SubmitAction
deriving DecidableEq, Repr

/-- The URL-handling prefix of the front-end `handleSubmit`. -/
def handleSubmit (u : List Char) : SubmitAction :=
  if (jsTrim u).isEmpty then .emptyUrlError
  else
    let n := normalizeUrl u
    if !validateUrl n then .invalidUrlError
    else .request n

/-! ## The request handler

Embeds the `Deno.serve` handler of the edge function as a pure function
of the request URL and an environment of oracle data: the configured
enrichment credential, the outcome of the page fetch, the outcome of the
OpenAI call (as a function of the content sent), and the outcome of the
store insert. -/

structure ScrapeEnv where
  hasAuthHeader : Bool
  authValid : Bool
  openaiKey : Option (List Char)
  fetchOutcome : Except (List Char) (Nat × List Char)
  openaiCall : List Char → Except (List Char) (Nat × Option (List Char))
  dbOutcome : Option (List Char)

/-- JavaScript truthiness of the `OPENAI_API_KEY` environment value. -/
def keyTruthy : Option (List Char) → Bool
  | some k => !k.isEmpty
  | none => false

/-- The Fetch-standard `Response.ok` (status in the range 200-299). -/
def okStatus (n : Nat) : Bool := decide (200 ≤ n ∧ n ≤ 299)

/-- Decimal rendering of a status code (models template interpolation). -/
def natChars (n : Nat) : List Char := (Nat.repr n).data

/-- The `generateAISummary` function of the edge function: require a
configured key, truncate the content to 12000 characters (appending an
ellipsis), call the OpenAI endpoint, fail on a non-2xx response, and
fall back to a sentinel when the returned text trims to empty. -/
def generateAISummary (env : ScrapeEnv) (content : List Char) (_title : List Char) :
    Except (List Char) (List Char) :=
  match env.openaiKey with
  | none => .error "OpenAI API key not configured".data
  | some k =>
    if k.isEmpty then .error "OpenAI API key not configured".data
    else
      let truncated :=
        if content.length > 12000 then content.take 12000 ++ "...".data else content
      match env.openaiCall truncated with
      | .error e => .error e
      | .ok (st, choice) =>
        if okStatus st then
          .ok (match choice with
               | some c => if (jsTrim c).isEmpty then "Summary could not be generated.".data
                           else jsTrim c
               | none => "Summary could not be generated.".data)
        else .error ("OpenAI API error: ".data ++ natChars st)

/-- The row handed to the store insert, together with the projection the
success response echoes back. -/
structure DbRow where
  url : List Char
  title : List Char
  content : List Char
  headings : List (List Char)
  links : List Link
  aiSummary : Option (List Char)
  analysisStatus : List Char
deriving DecidableEq, Repr

/-- Observable outcome of one request: the `success` flag of the JSON
response, the persisted row (if the insert happened and succeeded), and
the error message of a failure response. -/
structure Outcome where
  success : Bool
  persisted : Option DbRow
  errorMsg : Option (List Char)
deriving DecidableEq, Repr

/-- The `Deno.serve` request handler of the edge function (post-CORS):
auth checks, URL validation, fetch, extraction, best-effort enrichment
with status tracking, single store insert, response. -/
def handleScrape (env : ScrapeEnv) (url : Option (List Char)) : Outcome :=
  if !env.hasAuthHeader then ⟨false, none, some "No authorization header".data⟩
  else if !env.authValid then ⟨false, none, some "Invalid authentication".data⟩
  else
    match url with
    | none => ⟨false, none, some "URL is required".data⟩
    | some u =>
      if u.isEmpty then ⟨false, none, some "URL is required".data⟩
      else
        match parseURL u with
        | none => ⟨false, none, some "Invalid URL format".data⟩
        | some target =>
          match env.fetchOutcome with
          | .error e => ⟨false, none, some e⟩
          | .ok (status, body) =>
            if !okStatus status then
              ⟨false, none, some ("Failed to fetch webpage: ".data ++ natChars status)⟩
            else
              match parseHtml body (urlToString target) with
              | none => ⟨false, none, some "Invalid URL".data⟩
              | some scraped =>
                let enrich :=
                  if keyTruthy env.openaiKey && !(jsTrim scraped.content).isEmpty then
                    match generateAISummary env scraped.content scraped.title with
                    | .ok s => (s, "completed".data)
                    | .error _ => (([] : List Char), "failed".data)
                  else (([] : List Char), "pending".data)
                match env.dbOutcome with
                | some e => ⟨false, none, some ("Database error: ".data ++ e)⟩
                | none =>
                  ⟨true,
                   some ⟨urlToString target, scraped.title, scraped.content,
                         scraped.headings, scraped.links,
                         (if enrich.1.isEmpty then none else some enrich.1), enrich.2⟩,
                   none⟩

/-- Shape invariant of every accepted link match: a case-insensitive `<a`
opening, a nonempty attribute span free of `>`, a quoted href value, an
attribute tail free of `>`, inner content free of `<`, and a
case-insensitive `</a>` closing. -/
def wfLink (p : LinkParts) : Prop :=
  ciEqL "<a".data p.openTag = true ∧ p.s1 ≠ [] ∧ (∀ c ∈ p.s1, c ≠ '>') ∧
  ciEqL "href=".data p.hr = true ∧ isQuote p.q1 = true ∧ p.v ≠ [] ∧
  (∀ c ∈ p.v, isQuote c = false) ∧ isQuote p.q2 = true ∧
  (∀ c ∈ p.s2, c ≠ '>') ∧ (∀ c ∈ p.txt, c ≠ '<') ∧ ciEqL "</a>".data p.cl = true

/-! ## Concrete documents and environments used by the claims -/

def siteBase : List Char := "https://site.test/page".data

def c7Doc : List Char := "<html><body><h1>A</h1><a href=\"/x\">Go</a></body></html>".data

def badHrefDoc : List Char := "<a href=\"://e\">t</a>".data

def fooDoc : List Char := "<html><head><title>Foo</title></head><body>Hi</body></html>".data

def fooDocUpper : List Char := "<html><head><TITLE>Foo</TITLE></head><body>Hi</body></html>".data

def emptyTitleDoc : List Char := "<html><head><title></title></head><body>z</body></html>".data

def tagTitleDoc : List Char := "<html><head><title>a<b>c</b></title></head><body>z</body></html>".data

def twoTitleDoc : List Char := "<title></title><title>B</title>".data

def imgAnchorDoc : List Char := "<a href=\"/x\"><img src=\"i.png\"></a>".data

def spanAnchorDoc : List Char := "<a href=\"/x\"><span>Go</span></a>".data

def unquotedAnchorDoc : List Char := "<a href=/x>Go</a>".data

/-- Environment for the enrichment-error scenario: credential configured,
fetch succeeds, the OpenAI call rejects, the store insert succeeds. -/
def c3Env : ScrapeEnv :=
  ⟨true, true, some "k".data, .ok (200, "<p>hi</p>".data),
   fun _ => .error "boom".data, none⟩

/-- Environment for the no-credential scenario. -/
def c4Env : ScrapeEnv :=
  ⟨true, true, none, .ok (200, "<p>hi</p>".data),
   fun _ => .error "boom".data, none⟩

/-- Environment for the non-2xx fetch scenario. -/
def c5Env : ScrapeEnv :=
  ⟨true, true, none, .ok (404, "nope".data), fun _ => .error "x".data, none⟩

/-! ## Helper lemmas -/

theorem dropWhile_idem (p : α → Bool) (l : List α) :
    (l.dropWhile p).dropWhile p = l.dropWhile p := by
  induction l with
  | nil => rfl
  | cons a l ih =>
    by_cases h : p a
    · simpa [List.dropWhile_cons, h] using ih
    · simp [List.dropWhile_cons, h]

theorem trimRight_idem (l : List Char) : trimRight (trimRight l) = trimRight l := by
  induction l with
  | nil => rfl
  | cons c cs ih =>
    by_cases h : ((trimRight cs).isEmpty && isJsSpace c) = true
    · simp [trimRight, h]
    · simp [trimRight, h, ih]

theorem length_dropWhile_le (p : α → Bool) (l : List α) :
    (l.dropWhile p).length ≤ l.length := by
  induction l with
  | nil => simp
  | cons a l ih =>
    by_cases h : p a
    · rw [List.dropWhile_cons_of_pos h]
      simp only [List.length_cons]
      omega
    · simp [List.dropWhile_cons_of_neg h]

theorem dropWhile_trimRight (l : List Char) (h : l.dropWhile isJsSpace = l) :
    (trimRight l).dropWhile isJsSpace = trimRight l := by
  cases l with
  | nil => rfl
  | cons c cs =>
    have hc : isJsSpace c = false := by
      by_contra hc'
      have hc2 : isJsSpace c = true := by simpa using hc'
      rw [List.dropWhile_cons_of_pos hc2] at h
      have hlen := congrArg List.length h
      have hle := length_dropWhile_le isJsSpace cs
      simp at hlen
      omega
    have h1 : trimRight (c :: cs) = c :: trimRight cs := by
      simp [trimRight, hc]
    rw [h1, List.dropWhile_cons_of_neg (by simp [hc])]

theorem jsTrim_idem (l : List Char) : jsTrim (jsTrim l) = jsTrim l := by
  unfold jsTrim
  rw [dropWhile_trimRight _ (dropWhile_idem _ _), trimRight_idem]

theorem mapMO_mem {f : α → Option β} {xs : List α} {ys : List β} {y : β}
    (h : mapMO f xs = some ys) (hy : y ∈ ys) : ∃ x, x ∈ xs ∧ f x = some y := by
  induction xs generalizing ys with
  | nil =>
    simp only [mapMO, Option.some.injEq] at h
    subst h
    simp at hy
  | cons a as ih =>
    cases hfa : f a with
    | none => simp [mapMO, hfa] at h
    | some b =>
      cases hrec : mapMO f as with
      | none => simp [mapMO, hfa, hrec] at h
      | some bs =>
        simp only [mapMO, hfa, hrec, Option.some.injEq] at h
        subst h
        rcases List.mem_cons.mp hy with rfl | hy'
        · exact ⟨a, List.mem_cons_self a as, hfa⟩
        · obtain ⟨x, hx, hfx⟩ := ih hrec hy'
          exact ⟨x, List.mem_cons_of_mem a hx, hfx⟩

theorem parseURL_scheme {s : List Char} {u : URLRec} (h : parseURL s = some u) :
    ∃ c tl, u.scheme = c :: tl ∧ c.isAlpha = true ∧ ∀ x ∈ tl, isSchemeChar x = true := by
  cases s with
  | nil => simp [parseURL] at h
  | cons c rest =>
    simp only [parseURL] at h
    split at h
    · next hc =>
      split at h
      · next r2 heq =>
        split at h
        · next hss =>
          split at h
          · next hsp =>
            split at h
            · next hval =>
              cases h
              exact ⟨c, _, rfl, by simpa using hc, fun x hx => List.mem_takeWhile_imp hx⟩
            · exact absurd h (by simp)
          · exact absurd h (by simp)
        · next hss =>
          cases h
          exact ⟨c, _, rfl, by simpa using hc, fun x hx => List.mem_takeWhile_imp hx⟩
      · exact absurd h (by simp)
    · exact absurd h (by simp)

theorem hasUrlScheme_mkAbs {s : List Char} {u : URLRec} (h : parseURL s = some u)
    (t : List Char) : hasUrlScheme (mkAbs u t) = true := by
  obtain ⟨c, tl, hs, hα, htl⟩ := parseURL_scheme h
  rw [mkAbs, hs, List.cons_append]
  simp only [hasUrlScheme]
  rw [List.dropWhile_append_of_pos htl, List.dropWhile_cons_of_neg (by decide)]
  simp [hα]

theorem newURL_abs {href base u : List Char} (h : newURL href base = some u) :
    hasUrlScheme u = true := by
  unfold newURL at h
  by_cases h1 : hasUrlScheme href = true
  · rw [if_pos h1] at h
    cases h
    exact h1
  · rw [if_neg h1] at h
    split at h
    · simp at h
    · next b hb =>
      by_cases h2 : (!isSpecialScheme b.scheme) = true
      · rw [if_pos h2] at h; simp at h
      · rw [if_neg h2] at h
        by_cases h3 : startsWithL "//".data href = true
        · rw [if_pos h3] at h
          cases h
          exact hasUrlScheme_mkAbs hb _
        · rw [if_neg h3] at h
          by_cases h4 : href.head? = some '/'
          · rw [if_pos h4] at h
            cases h
            exact hasUrlScheme_mkAbs hb _
          · rw [if_neg h4] at h
            cases h
            exact hasUrlScheme_mkAbs hb _

theorem linkOfMatch_url {base m : List Char} {l : Link}
    (h : linkOfMatch base m = some (some l)) :
    hasUrlScheme l.url = true ∨ containsSub "://".data l.url = true := by
  simp only [linkOfMatch] at h
  split at h
  · simp at h
  · next href hh =>
    split at h
    · split at h
      · simp at h
      · next b hb =>
        cases h
        left
        exact hasUrlScheme_mkAbs hb _
    · split at h
      · split at h
        · simp at h
        · next url hn =>
          cases h
          left
          exact newURL_abs hn
      · next hcond =>
        cases h
        right
        simp only [Bool.or_eq_true, not_or, Bool.not_eq_true] at hcond
        show containsSub "://".data href = true
        simpa using hcond.2
theorem parseHtml_fields {html baseUrl : List Char} {d : ScrapedData}
    (hp : parseHtml html baseUrl = some d) :
    d.title = extractTitle html ∧ d.content = extractContent html ∧
    d.headings = extractHeadings html ∧ extractLinks html baseUrl = some d.links := by
  rw [parseHtml.eq_def] at hp
  split at hp
  · simp at hp
  · next links hl =>
    cases hp
    refine ⟨?_, ?_, ?_, ?_⟩
    · with_reducible rfl
    · with_reducible rfl
    · with_reducible rfl
    · rw [hl]

theorem extractLinks_elim {html baseUrl : List Char} {links : List Link} {l : Link}
    (he : extractLinks html baseUrl = some links) (hl : l ∈ links) :
    ∃ m, m ∈ gatherLinks html.length html ∧ linkOfMatch baseUrl m = some (some l) ∧
      goodLink l = true := by
  rw [extractLinks.eq_def] at he
  split at he
  · simp at he
  · next es hm =>
    cases he
    have h1 : l ∈ (es.filterMap id).filter goodLink := List.mem_of_mem_take hl
    have h2 := List.mem_filter.mp h1
    obtain ⟨ol, hol, holl⟩ := List.mem_filterMap.mp h2.1
    obtain ⟨m, hmm, hfm⟩ := mapMO_mem hm hol
    refine ⟨m, hmm, ?_, h2.2⟩
    rw [hfm]
    exact congrArg some holl

theorem mem_links_elim {html base : List Char} {d : ScrapedData} {l : Link}
    (hp : parseHtml html base = some d) (hl : l ∈ d.links) :
    ∃ m, m ∈ gatherLinks html.length html ∧ linkOfMatch base m = some (some l) ∧
      goodLink l = true :=
  extractLinks_elim (parseHtml_fields hp).2.2.2 hl

theorem length_truncate_le (l : List Char) :
    (if l.length > 15000 then l.take 15000 else l).length ≤ 15000 := by
  split
  · simp [List.length_take]
  · omega

theorem extractContent_le (html : List Char) : (extractContent html).length ≤ 15000 :=
  length_truncate_le _

theorem expectCI_ciEq {pat cs t r : List Char} (h : expectCI pat cs = some (t, r)) :
    ciEqL pat t = true := by
  induction pat generalizing cs t r with
  | nil =>
    simp only [expectCI, Option.some.injEq, Prod.mk.injEq] at h
    rw [← h.1]
    rfl
  | cons p ps ih =>
    cases cs with
    | nil => simp [expectCI] at h
    | cons c cs' =>
      simp only [expectCI] at h
      split at h
      · next hpc =>
        split at h
        · next t' r' hrec =>
          simp only [Option.some.injEq, Prod.mk.injEq] at h
          obtain ⟨ht, hr⟩ := h
          subst ht
          simp only [ciEqL, Bool.and_eq_true]
          exact ⟨hpc, ih hrec⟩
        · simp at h
      · simp at h

theorem linkCont_wf {cs : List Char} {cp : ContParts} {rest : List Char}
    (h : linkCont cs = some (cp, rest)) :
    ciEqL "href=".data cp.hr = true ∧ isQuote cp.q1 = true ∧ cp.v ≠ [] ∧
    (∀ c ∈ cp.v, isQuote c = false) ∧ isQuote cp.q2 = true ∧
    (∀ c ∈ cp.s2, c ≠ '>') ∧ (∀ c ∈ cp.txt, c ≠ '<') ∧
    ciEqL "</a>".data cp.cl = true := by
  rw [linkCont.eq_def] at h
  split at h
  · simp at h
  · next hr r2 hex =>
    split at h
    · simp at h
    · next q1 r3 =>
      split at h
      · next hq1 =>
        split at h
        · simp at h
        · next q2 r4 hdw =>
          split at h
          · simp at h
          · next hvne =>
            split at h
            · next hq2 =>
              split at h
              · next r5 hdw2 =>
                split at h
                · next cl rest2 hcl =>
                  cases h
                  refine ⟨expectCI_ciEq hex, hq1, ?_, ?_, hq2, ?_, ?_, expectCI_ciEq hcl⟩
                  · simpa using hvne
                  · intro c hc
                    simpa using List.mem_takeWhile_imp hc
                  · intro c hc
                    simpa using List.mem_takeWhile_imp hc
                  · intro c hc
                    simpa using List.mem_takeWhile_imp hc
                · simp at h
              · simp at h
            · simp at h
      · simp at h

theorem linkTail_wf {r1 : List Char} {k : Nat} {s1 : List Char} {cp : ContParts}
    {rest : List Char} (h : linkTail r1 k = some (s1, cp, rest)) :
    s1 ≠ [] ∧ (∀ c ∈ s1, c ≠ '>') ∧
    (ciEqL "href=".data cp.hr = true ∧ isQuote cp.q1 = true ∧ cp.v ≠ [] ∧
     (∀ c ∈ cp.v, isQuote c = false) ∧ isQuote cp.q2 = true ∧
     (∀ c ∈ cp.s2, c ≠ '>') ∧ (∀ c ∈ cp.txt, c ≠ '<') ∧
     ciEqL "</a>".data cp.cl = true) := by
  induction k with
  | zero => simp [linkTail] at h
  | succ k ih =>
    simp only [linkTail] at h
    split at h
    · next hguard =>
      split at h
      · next cp2 rest2 hcont =>
        cases h
        simp only [Bool.and_eq_true, decide_eq_true_eq] at hguard
        obtain ⟨hlen, hall⟩ := hguard
        refine ⟨?_, ?_, linkCont_wf hcont⟩
        · intro hnil
          rw [hnil] at hlen
          simp at hlen
        · intro c hc
          simpa using List.all_eq_true.mp hall c hc
      · exact ih h
    · exact ih h

theorem tryLinkAt_wf {cs : List Char} {p : LinkParts} {rest : List Char}
    (h : tryLinkAt cs = some (p, rest)) : wfLink p := by
  simp only [tryLinkAt] at h
  split at h
  · simp at h
  · next a2 r1 hex =>
    split at h
    · next s1 cp rest2 htl =>
      cases h
      obtain ⟨h1, h2, h3⟩ := linkTail_wf htl
      exact ⟨expectCI_ciEq hex, h1, h2, h3⟩
    · simp at h

theorem mem_gatherLinks_wf {fuel : Nat} {cs m : List Char}
    (h : m ∈ gatherLinks fuel cs) : ∃ p : LinkParts, m = p.str ∧ wfLink p := by
  induction fuel generalizing cs with
  | zero => simp [gatherLinks] at h
  | succ fuel ih =>
    cases cs with
    | nil => simp [gatherLinks] at h
    | cons c cs2 =>
      simp only [gatherLinks] at h
      split at h
      · next p2 rest htry =>
        rcases List.mem_cons.mp h with rfl | h2
        · exact ⟨p2, rfl, tryLinkAt_wf htry⟩
        · exact ih h2
      · exact ih h

/-! ## Claims -/

/-- Claim C1 (counterexample): the claim says every extracted link has an
absolute `url`.  On the document `<a href="://e">t</a>` the href contains
`://`, so `parseHtml` uses it verbatim, yet `://e` begins with no scheme
and is not absolute; the link still appears in the output list. -/
theorem c1_link_url_counterexample :
    parseHtml badHrefDoc siteBase =
      some ⟨"Untitled".data, "t".data, [], [⟨"t".data, "://e".data⟩]⟩ ∧
    hasUrlScheme "://e".data = false := by
  exact ⟨by decide, by decide⟩

/-- Claim C1 (amended): every link in the extractor's output has non-empty
text (falling back to the resolved URL when the anchor's inner text trims
to empty) and a url that begins with neither `javascript:` nor `mailto:`;
the url is scheme-absolute except that an href already containing `://` is
used verbatim, in which case the url is only guaranteed to contain `://`. -/
theorem c1_link_url_amended (html baseUrl : List Char) (d : ScrapedData)
    (hp : parseHtml html baseUrl = some d) :
    ∀ l ∈ d.links, l.text ≠ [] ∧ l.url ≠ [] ∧
      startsWithL "javascript:".data l.url = false ∧
      startsWithL "mailto:".data l.url = false ∧
      (hasUrlScheme l.url = true ∨ containsSub "://".data l.url = true) := by
  intro l hl
  obtain ⟨m, hm, hlm, hgood⟩ := mem_links_elim hp hl
  simp only [goodLink, Bool.and_eq_true, Bool.not_eq_true'] at hgood
  obtain ⟨⟨⟨ht, hu⟩, hj⟩, hmail⟩ := hgood
  refine ⟨?_, ?_, hj, hmail, linkOfMatch_url hlm⟩
  · intro hnil
    rw [hnil] at ht
    simp at ht
  · intro hnil
    rw [hnil] at hu
    simp at hu

/-- Claim C1 (witness): the amended claim instantiated on the example
document of the specification. -/
theorem c1_link_url_amended_witness :
    "Go".data ≠ ([] : List Char) ∧ "https://site.test/x".data ≠ ([] : List Char) ∧
    startsWithL "javascript:".data "https://site.test/x".data = false ∧
    startsWithL "mailto:".data "https://site.test/x".data = false ∧
    (hasUrlScheme "https://site.test/x".data = true ∨
     containsSub "://".data "https://site.test/x".data = true) :=
  c1_link_url_amended c7Doc siteBase
    ⟨"Untitled".data, "A Go".data, ["A".data], [⟨"Go".data, "https://site.test/x".data⟩]⟩
    (by decide) ⟨"Go".data, "https://site.test/x".data⟩ (by decide)

/-- Claim C2: for every document and base URL on which the extractor
returns, the output satisfies `headings.length ≤ 20`, `links.length ≤ 50`
and `content.length ≤ 15000`, and every heading is non-empty after
trimming. -/
theorem c2_extractor_bounds (html baseUrl : List Char) (d : ScrapedData)
    (hp : parseHtml html baseUrl = some d) :
    d.headings.length ≤ 20 ∧ d.links.length ≤ 50 ∧ d.content.length ≤ 15000 ∧
    ∀ hd ∈ d.headings, jsTrim hd ≠ [] := by
  obtain ⟨hti, hco, hhe, hli⟩ := parseHtml_fields hp
  obtain ⟨es, hm, hlinks⟩ : ∃ es,
      mapMO (linkOfMatch baseUrl) (gatherLinks html.length html) = some es ∧
        d.links = ((es.filterMap id).filter goodLink).take 50 := by
    rw [extractLinks.eq_def] at hli
    split at hli
    · simp at hli
    · next es hm =>
      exact ⟨es, hm, by simpa using hli.symm⟩
  refine ⟨?_, ?_, ?_, ?_⟩
  · rw [hhe, extractHeadings]
    simp only [List.length_take]
    omega
  · rw [hlinks]
    simp only [List.length_take]
    omega
  · rw [hco]
    exact extractContent_le html
  · intro hd hmem
    rw [hhe, extractHeadings] at hmem
    have h2 := List.mem_filter.mp (List.mem_of_mem_take hmem)
    obtain ⟨m, hmm, hfm⟩ := List.mem_map.mp h2.1
    have hne : hd ≠ [] := by
      intro hnil
      rw [hnil] at h2
      simp at h2
    cases hft : firstGtInnerPlus m with
    | none =>
      rw [hft] at hfm
      simp only [] at hfm
      first
      | exact absurd hfm hne
      | exact absurd hfm.symm hne
    | some t =>
      rw [hft] at hfm
      have hfm2 : jsTrim t = hd := by simpa using hfm
      rw [← hfm2, jsTrim_idem, hfm2]
      exact hne

/-- Claim C2 (witness): the bounds instantiated on the example document,
with the heading invariant instantiated at the heading `A`. -/
theorem c2_extractor_bounds_witness :
    (["A".data] : List (List Char)).length ≤ 20 ∧
    ([⟨"Go".data, "https://site.test/x".data⟩] : List Link).length ≤ 50 ∧
    "A Go".data.length ≤ 15000 ∧
    jsTrim "A".data ≠ [] := by
  have h := c2_extractor_bounds c7Doc siteBase
    ⟨"Untitled".data, "A Go".data, ["A".data], [⟨"Go".data, "https://site.test/x".data⟩]⟩
    (by decide)
  exact ⟨h.1, h.2.1, h.2.2.1, h.2.2.2 "A".data (by decide)⟩

/-- Claim C7: the specification's example document, fetched from
`https://site.test/page`, extracts heading `A` and the link `Go` with the
`/`-prefixed href combined with the base URL's scheme and host. -/
theorem c7_example_extraction :
    parseHtml c7Doc siteBase =
      some ⟨"Untitled".data, "A Go".data, ["A".data],
            [⟨"Go".data, "https://site.test/x".data⟩]⟩ := by
  decide

/-- Claim C3: when fetch and extraction succeed, enrichment is attempted
(credential configured, content non-empty after trimming) but the call
errors, and the store insert succeeds, the handler records status
`failed` with the summary absent, still persists the record, and the
request returns success. -/
theorem c3_enrichment_failure_continues (env : ScrapeEnv) (u : List Char)
    (target : URLRec) (status : Nat) (body e : List Char) (d : ScrapedData)
    (hauth1 : env.hasAuthHeader = true) (hauth2 : env.authValid = true)
    (hu : u ≠ [])
    (hurl : parseURL u = some target)
    (hfetch : env.fetchOutcome = .ok (status, body))
    (hok : okStatus status = true)
    (hext : parseHtml body (urlToString target) = some d)
    (hkey : keyTruthy env.openaiKey = true)
    (hcon : jsTrim d.content ≠ [])
    (hai : generateAISummary env d.content d.title = .error e)
    (hdb : env.dbOutcome = none) :
    handleScrape env (some u) =
      ⟨true,
       some ⟨urlToString target, d.title, d.content, d.headings, d.links,
             none, "failed".data⟩,
       none⟩ := by
  have hu2 : u.isEmpty = false := by
    cases hju : u with
    | nil => exact absurd hju hu
    | cons a l => rfl
  have hcon2 : (jsTrim d.content).isEmpty = false := by
    cases hj : jsTrim d.content with
    | nil => exact absurd hj hcon
    | cons a l => rfl
  simp only [handleScrape, hauth1, hauth2, hu2, hurl, hfetch, hok, hext, hkey,
    hcon2, hai, hdb, Bool.not_true, Bool.false_eq_true, if_false, Bool.and_self]
  simp

/-- Claim C3 (witness): the enrichment-error scenario at a concrete
environment. -/
theorem c3_enrichment_failure_continues_witness :
    handleScrape c3Env (some "https://site.test/".data) =
      ⟨true,
       some ⟨"https://site.test/".data, "Untitled".data, "hi".data, [], [],
             none, "failed".data⟩,
       none⟩ :=
  c3_enrichment_failure_continues c3Env "https://site.test/".data
    ⟨"https".data, "site.test".data, "/".data⟩ 200 "<p>hi</p>".data "boom".data
    ⟨"Untitled".data, "hi".data, [], []⟩
    rfl rfl (by decide) (by decide) rfl (by decide) (by decide) rfl (by decide)
    rfl rfl

/-- Claim C4: when no enrichment credential is configured or the content
is empty after trimming, enrichment is not attempted: the persisted
record has status `pending` with the summary absent, and the request
still persists and returns success. -/
theorem c4_no_enrichment_pending (env : ScrapeEnv) (u : List Char)
    (target : URLRec) (status : Nat) (body : List Char) (d : ScrapedData)
    (hauth1 : env.hasAuthHeader = true) (hauth2 : env.authValid = true)
    (hu : u ≠ [])
    (hurl : parseURL u = some target)
    (hfetch : env.fetchOutcome = .ok (status, body))
    (hok : okStatus status = true)
    (hext : parseHtml body (urlToString target) = some d)
    (hskip : keyTruthy env.openaiKey = false ∨ jsTrim d.content = [])
    (hdb : env.dbOutcome = none) :
    handleScrape env (some u) =
      ⟨true,
       some ⟨urlToString target, d.title, d.content, d.headings, d.links,
             none, "pending".data⟩,
       none⟩ := by
  have hu2 : u.isEmpty = false := by
    cases hju : u with
    | nil => exact absurd hju hu
    | cons a l => rfl
  have hskip2 : (keyTruthy env.openaiKey && !(jsTrim d.content).isEmpty) = false := by
    rcases hskip with h | h
    · simp [h]
    · simp [h]
  simp only [handleScrape, hauth1, hauth2, hu2, hurl, hfetch, hok, hext, hskip2,
    hdb, Bool.not_true, Bool.false_eq_true, if_false]
  simp

/-- Claim C4 (witness): the no-credential scenario at a concrete
environment. -/
theorem c4_no_enrichment_pending_witness :
    handleScrape c4Env (some "https://site.test/".data) =
      ⟨true,
       some ⟨"https://site.test/".data, "Untitled".data, "hi".data, [], [],
             none, "pending".data⟩,
       none⟩ :=
  c4_no_enrichment_pending c4Env "https://site.test/".data
    ⟨"https".data, "site.test".data, "/".data⟩ 200 "<p>hi</p>".data
    ⟨"Untitled".data, "hi".data, [], []⟩
    rfl rfl (by decide) (by decide) rfl (by decide) (by decide) (Or.inl rfl) rfl

/-- Claim C5: a fetch response with a non-2xx status makes the handler
fail with an error surfacing the numeric status, persists nothing, and
returns a failure response. -/
theorem c5_fetch_non2xx_fails (env : ScrapeEnv) (u : List Char)
    (target : URLRec) (status : Nat) (body : List Char)
    (hauth1 : env.hasAuthHeader = true) (hauth2 : env.authValid = true)
    (hu : u ≠ [])
    (hurl : parseURL u = some target)
    (hfetch : env.fetchOutcome = .ok (status, body))
    (hok : okStatus status = false) :
    handleScrape env (some u) =
      ⟨false, none, some ("Failed to fetch webpage: ".data ++ natChars status)⟩ := by
  have hu2 : u.isEmpty = false := by
    cases hju : u with
    | nil => exact absurd hju hu
    | cons a l => rfl
  simp only [handleScrape, hauth1, hauth2, hu2, hurl, hfetch, hok,
    Bool.not_true, Bool.not_false, Bool.false_eq_true, if_false, if_true]

/-- Claim C5 (witness): the 404 scenario at a concrete environment. -/
theorem c5_fetch_non2xx_fails_witness :
    handleScrape c5Env (some "https://site.test/".data) =
      ⟨false, none, some "Failed to fetch webpage: 404".data⟩ :=
  c5_fetch_non2xx_fails c5Env "https://site.test/".data
    ⟨"https".data, "site.test".data, "/".data⟩ 404 "nope".data
    rfl rfl (by decide) (by decide) rfl (by decide)

/-- Claim C6: the extractor's title is the trimmed capture of the first
case-insensitive title match and `Untitled` when there is none; a
document containing exactly one `<title>Foo</title>` (in either case)
yields title `Foo`. -/
theorem c6_title_contract :
    (∀ html baseUrl d t, parseHtml html baseUrl = some d → firstTitle html = some t →
       d.title = jsTrim t) ∧
    (∀ html baseUrl d, parseHtml html baseUrl = some d → firstTitle html = none →
       d.title = "Untitled".data) ∧
    (∀ baseUrl, parseHtml fooDoc baseUrl =
       some ⟨"Foo".data, "Foo Hi".data, [], []⟩) ∧
    (∀ baseUrl, parseHtml fooDocUpper baseUrl =
       some ⟨"Foo".data, "Foo Hi".data, [], []⟩) := by
  refine ⟨?_, ?_, ?_, ?_⟩
  · intro html baseUrl d t hp ht
    rw [(parseHtml_fields hp).1, extractTitle.eq_def, ht]
  · intro html baseUrl d hp ht
    rw [(parseHtml_fields hp).1, extractTitle.eq_def, ht]
  · intro baseUrl
    rfl
  · intro baseUrl
    rfl

/-- Claim C6 (witness): the title contract instantiated on the `Foo`
document. -/
theorem c6_title_contract_witness :
    (⟨"Foo".data, "Foo Hi".data, [], []⟩ : ScrapedData).title = jsTrim "Foo".data :=
  c6_title_contract.1 fooDoc siteBase ⟨"Foo".data, "Foo Hi".data, [], []⟩
    "Foo".data (by decide) (by decide)

/-- Claim C8: a user-supplied URL without an `http`/`https` scheme is
normalized by prepending `https://` before validation (`"example.com"`
becomes `"https://example.com"`); after normalization, an invalid URL is
rejected without a network request and a valid one is submitted. -/
theorem c8_normalize_then_validate :
    (∀ u, startsWithHttpScheme (jsTrim u) = false →
        normalizeUrl u = "https://".data ++ jsTrim u) ∧
    normalizeUrl "example.com".data = "https://example.com".data ∧
    (∀ u, jsTrim u ≠ [] → validateUrl (normalizeUrl u) = false →
        handleSubmit u = SubmitAction.invalidUrlError) ∧
    (∀ u, jsTrim u ≠ [] → validateUrl (normalizeUrl u) = true →
        handleSubmit u = SubmitAction.request (normalizeUrl u)) := by
  refine ⟨?_, by decide, ?_, ?_⟩
  · intro u h
    simp [normalizeUrl, h]
  · intro u h1 h2
    have h1b : (jsTrim u).isEmpty = false := by
      cases hj : jsTrim u with
      | nil => exact absurd hj h1
      | cons a l => rfl
    simp [handleSubmit, h1b, h2]
  · intro u h1 h2
    have h1b : (jsTrim u).isEmpty = false := by
      cases hj : jsTrim u with
      | nil => exact absurd hj h1
      | cons a l => rfl
    simp [handleSubmit, h1b, h2]

/-- Claim C8 (witness): a syntactically invalid normalized URL is
rejected without a request. -/
theorem c8_normalize_then_validate_witness :
    handleSubmit "a b".data = SubmitAction.invalidUrlError :=
  c8_normalize_then_validate.2.2.1 "a b".data (by decide) (by decide)

/-- Claim C9: every link in the extractor's output arises from a link
match with a quoted href value and tag-free inner content; anchors with
a child tag inside (img, span) or an unquoted href are not extracted at
all. -/
theorem c9_links_quoted_tagfree :
    (∀ html baseUrl d, parseHtml html baseUrl = some d → ∀ l ∈ d.links,
       ∃ m p, m ∈ gatherLinks html.length html ∧
         linkOfMatch baseUrl m = some (some l) ∧ m = LinkParts.str p ∧ wfLink p) ∧
    parseHtml imgAnchorDoc siteBase = some ⟨"Untitled".data, [], [], []⟩ ∧
    parseHtml spanAnchorDoc siteBase = some ⟨"Untitled".data, "Go".data, [], []⟩ ∧
    parseHtml unquotedAnchorDoc siteBase =
      some ⟨"Untitled".data, "Go".data, [], []⟩ := by
  refine ⟨?_, by decide, by decide, by decide⟩
  intro html baseUrl d hp l hl
  obtain ⟨m, hm, hlm, hg⟩ := mem_links_elim hp hl
  obtain ⟨p, hstr, hwf⟩ := mem_gatherLinks_wf hm
  exact ⟨m, p, hm, hlm, hstr, hwf⟩

/-- Claim C9 (witness): the structural guarantee instantiated on the
example document's single link. -/
theorem c9_links_quoted_tagfree_witness :
    ∃ m p, m ∈ gatherLinks c7Doc.length c7Doc ∧
      linkOfMatch siteBase m = some (some ⟨"Go".data, "https://site.test/x".data⟩) ∧
      m = LinkParts.str p ∧ wfLink p :=
  c9_links_quoted_tagfree.1 c7Doc siteBase
    ⟨"Untitled".data, "A Go".data, ["A".data], [⟨"Go".data, "https://site.test/x".data⟩]⟩
    (by decide) ⟨"Go".data, "https://site.test/x".data⟩ (by decide)

/-- Claim C10 (counterexample): a document whose first title element has
empty inner text need not yield `Untitled`: a later title element is
matched instead. -/
theorem c10_title_counterexample :
    parseHtml twoTitleDoc siteBase = some ⟨"B".data, "B".data, [], []⟩ ∧
    "B".data ≠ "Untitled".data := by
  exact ⟨by decide, by decide⟩

/-- Claim C10 (amended): an empty or tag-containing title element is not
matched by the title pattern: the extractor behaves exactly as if that
element were absent, falling back to a later matching title element when
one exists, and returns `Untitled` when no title pattern matches (in
particular for documents whose only title element is empty or contains a
child tag). -/
theorem c10_title_skip_amended :
    (∀ rest, firstTitle ("<title></title>".data ++ rest) = firstTitle rest) ∧
    (∀ baseUrl, parseHtml emptyTitleDoc baseUrl =
       some ⟨"Untitled".data, "z".data, [], []⟩) ∧
    (∀ baseUrl, parseHtml tagTitleDoc baseUrl =
       some ⟨"Untitled".data, "a c z".data, [], []⟩) := by
  refine ⟨?_, ?_, ?_⟩
  · intro rest
    rfl
  · intro baseUrl
    rfl
  · intro baseUrl
    rfl
